import Mathlib

/-!
Formal model of the JLPT word cycler desktop application (src/app.py).

The development shallowly embeds the three logical pieces of the program:

* the JSON-backed configuration store (`ConfigManager`),
* the JSON/CSV word loaders (`load_words`, `load_words_from_csv`), and
* the timer-driven display state machine of `WordCyclerApp`
  (display, pause, resume, config changes, word import).

Python scalar values are modelled by an explicit inductive type, machine
time by integer milliseconds, the single tk event-loop timer queue by an
explicit list of pending jobs, and `random.shuffle` by an arbitrary
function parameter (its permutation property is a hypothesis where it is
needed).  Fallible loaders return `Except`.
-/

namespace JLPT

/-- A Python/JSON scalar value as it appears in the configuration file and
in word records.  `vnone` is Python `None` (a JSON `null`, a missing key
looked up with `dict.get`, or a missing CSV cell).  Composite values
(arrays, objects) and floats do not occur in the documents this program
reads and are omitted from the model. -/
inductive PyVal where
  | vnone
  | vint (n : Int)
  | vbool (b : Bool)
  | vstr (s : String)
deriving DecidableEq

/-- Python `str()` conversion on the scalar values above:
`str(None) = "None"`, `str(True) = "True"`, `str(False) = "False"`,
integers render in decimal, strings are returned unchanged. -/
def pyStr : PyVal → String
  | .vnone => "None"
  | .vint n => toString n
  | .vbool b => if b then "True" else "False"
  | .vstr s => s

/-- Python `str.strip()`: remove leading and trailing whitespace.
Defined on the character list so that it evaluates by kernel reduction. -/
def pyStrip (s : String) : String :=
  ⟨((s.data.dropWhile Char.isWhitespace).reverse.dropWhile Char.isWhitespace).reverse⟩

/-- Python `int()` applied to a string: surrounding whitespace is ignored,
an optional sign is followed by decimal digits; anything else raises
`ValueError`, modelled as `none`.  (Digit-group underscores and non-ASCII
digits, which CPython also accepts, are not modelled.) -/
def pyStrToInt (s : String) : Option Int :=
  let t := (pyStrip s).data
  let signed :=
    match t with
    | '-' :: rest => (true, rest)
    | '+' :: rest => (false, rest)
    | _ => (false, t)
  let core := signed.2
  if core.length > 0 ∧ core.all Char.isDigit then
    let n : Nat := core.foldl (fun acc c => acc * 10 + (c.toNat - 48)) 0
    some (if signed.1 then -(n : Int) else (n : Int))
  else none

/-- Python `int()` on a scalar value: `None` raises `TypeError`, booleans
are an `int` subclass (`int(True) = 1`), integers pass through, strings
are parsed by `pyStrToInt`. -/
def pyToInt : PyVal → Option Int
  | .vnone => none
  | .vint n => some n
  | .vbool b => some (if b then 1 else 0)
  | .vstr s => pyStrToInt s

/-- `parse_positive_int` from src/app.py: coerce the value with `int()`;
on failure or a non-positive result return the fallback. -/
def parse_positive_int (value : PyVal) (fallback : Int) : Int :=
  match pyToInt value with
  | none => fallback
  | some n => if n > 0 then n else fallback

/-- The validated configuration record (`ConfigManager.data`). -/
structure Config where
  showMeaningTimer : Int
  nextWordTimer : Int
  alwaysOnTop : Bool
deriving DecidableEq

/-- `DEFAULT_CONFIG` from src/app.py. -/
def DEFAULT_CONFIG : Config :=
  { showMeaningTimer := 3, nextWordTimer := 5, alwaysOnTop := true }

/-- A raw configuration dictionary as parsed from config.json: the results
of `raw.get` for the three known keys (a missing key yields `vnone`). -/
structure RawConfig where
  showMeaningTimer : PyVal
  nextWordTimer : PyVal
  alwaysOnTop : PyVal
deriving DecidableEq

/-- `ConfigManager._merge_with_defaults` from src/app.py.  `none` stands
for a parsed top level that is not a dictionary (the `isinstance` guard
fails and the defaults are returned wholesale). -/
def merge_with_defaults (raw : Option RawConfig) : Config :=
  match raw with
  | none => DEFAULT_CONFIG
  | some r =>
    { showMeaningTimer :=
        parse_positive_int r.showMeaningTimer DEFAULT_CONFIG.showMeaningTimer
      nextWordTimer :=
        parse_positive_int r.nextWordTimer DEFAULT_CONFIG.nextWordTimer
      alwaysOnTop :=
        match r.alwaysOnTop with
        | .vbool b => b
        | _ => DEFAULT_CONFIG.alwaysOnTop }

/-- The state of a `ConfigManager`: the in-memory record `data` and the
contents `file` of config.json on disk. -/
structure ConfigManager where
  data : Config
  file : Config
deriving DecidableEq

/-- `ConfigManager.update` from src/app.py: each timer value is coerced by
`parse_positive_int` against the corresponding default, the top-most flag
is stored as given, and `save()` immediately persists the record. -/
def ConfigManager.update (_st : ConfigManager) (show_meaning_timer next_word_timer : PyVal)
    (always_on_top : Bool) : ConfigManager :=
  let d : Config :=
    { showMeaningTimer :=
        parse_positive_int show_meaning_timer DEFAULT_CONFIG.showMeaningTimer
      nextWordTimer :=
        parse_positive_int next_word_timer DEFAULT_CONFIG.nextWordTimer
      alwaysOnTop := always_on_top }
  { data := d, file := d }

/-- A validated vocabulary entry. -/
structure WordEntry where
  word : String
  reading : String
  meaning : String
deriving DecidableEq

/-- A raw item of the parsed words array: either not a dictionary, or the
results of `item.get(key, "")` for the three keys (a missing key yields
the default `vstr ""`). -/
inductive RawItem where
  | notDict
  | entry (word reading meaning : PyVal)
deriving DecidableEq

/-- One step of the loop body of `_clean_word_entries`: skip non-dict
items, apply `str(...).strip()` to the three fields, and keep the record
exactly when all three results are non-empty. -/
def cleanItem : RawItem → Option WordEntry
  | .notDict => none
  | .entry w r m =>
    let word := pyStrip (pyStr w)
    let reading := pyStrip (pyStr r)
    let meaning := pyStrip (pyStr m)
    if word ≠ "" ∧ reading ≠ "" ∧ meaning ≠ "" then
      some { word := word, reading := reading, meaning := meaning }
    else none

/-- `_clean_word_entries` from src/app.py: filter the raw items and raise
`ValueError` when nothing valid remains. -/
def clean_word_entries (raw : List RawItem) : Except String (List WordEntry) :=
  let cleaned := raw.filterMap cleanItem
  if cleaned.isEmpty then
    Except.error "유효한 단어 항목을 찾을 수 없습니다."
  else
    Except.ok cleaned

/-- The parsed top level of a words JSON document: either not a list, or a
list of raw items. -/
inductive JsonDoc where
  | notList
  | list (items : List RawItem)
deriving DecidableEq

/-- `load_words` from src/app.py, after JSON parsing succeeded: reject a
top level that is not a list, otherwise clean the entries.  (File-system
and JSON-syntax failures happen before the modelled code runs.) -/
def load_words : JsonDoc → Except String (List WordEntry)
  | .notList => Except.error "단어 객체 배열이 필요합니다."
  | .list items => clean_word_entries items

/-- Header normalisation of `load_words_from_csv`: strip surrounding
whitespace, strip leading byte-order marks, lowercase. -/
def normalizeHeader (name : String) : String :=
  ⟨((pyStrip name).data.dropWhile (fun c => c = '\uFEFF')).map Char.toLower⟩

/-- One loop iteration of the `header_map` construction in
`load_words_from_csv`: empty names and names normalising to the empty
string are skipped, otherwise the normalised name maps to the original
one, a later duplicate overwriting an earlier entry. -/
def headerStep (m : String → Option String) (name : String) : String → Option String :=
  if name = "" then m
  else
    let normalized := normalizeHeader name
    if normalized = "" then m
    else fun k => if k = normalized then some name else m k

/-- The `header_map` dictionary of `load_words_from_csv`, modelled as a
finite map built by folding `headerStep` over the field names. -/
def buildHeaderMap (fieldnames : List String) : String → Option String :=
  fieldnames.foldl headerStep (fun _ => none)

/-- The required-header check of `load_words_from_csv`:
`{"word", "reading", "meaning"}.issubset(header_map)`, returning the
original field names to read the rows with. -/
def resolveHeaders (fieldnames : List String) : Option (String × String × String) :=
  match buildHeaderMap fieldnames "word", buildHeaderMap fieldnames "reading",
      buildHeaderMap fieldnames "meaning" with
  | some w, some r, some m => some (w, r, m)
  | _, _, _ => none

/-- The dictionary `csv.DictReader` builds for one data row: field names
zipped with the row values, cells beyond the end of the row filled with
the default `restval = None`, later duplicate names overwriting earlier
ones. -/
def rowDict (fieldnames row : List String) : String → Option PyVal :=
  (List.zip fieldnames
      (row.map PyVal.vstr ++ List.replicate fieldnames.length PyVal.vnone)).foldl
    (fun d p => fun k => if k = p.1 then some p.2 else d k)
    (fun _ => none)

/-- `row.get(name, "")` on a `DictReader` row. -/
def rowGet (fieldnames row : List String) (name : String) : PyVal :=
  (rowDict fieldnames row name).getD (PyVal.vstr "")

/-- The raw records `load_words_from_csv` builds from the data rows before
handing them to `_clean_word_entries`. -/
def csvItems (fieldnames : List String) (rows : List (List String))
    (wName rName mName : String) : List RawItem :=
  rows.map fun row =>
    RawItem.entry (rowGet fieldnames row wName) (rowGet fieldnames row rName)
      (rowGet fieldnames row mName)

/-- `load_words_from_csv` from src/app.py, after the file was read:
`none` field names stand for an empty file (`reader.fieldnames is None`);
otherwise the header map is built, the three required headers are
resolved, and the data rows are cleaned. -/
def load_words_from_csv (fieldnames : Option (List String))
    (rows : List (List String)) : Except String (List WordEntry) :=
  match fieldnames with
  | none => Except.error "헤더 행이 필요합니다."
  | some fns =>
    match resolveHeaders fns with
    | some (wName, rName, mName) =>
      clean_word_entries (csvItems fns rows wName rName mName)
    | none => Except.error "word, reading, meaning 헤더가 모두 포함되어야 합니다."

/-- The callbacks `_schedule_after` is ever called with: `display_word`
arms `display_meaning`, and `display_meaning` arms `advance_word`. -/
inductive Cb where
  | displayMeaning
  | advanceWord
deriving DecidableEq

/-- One pending timer of the tk event loop, created by `root.after`:
its identifier, the delay it was armed with, and the absolute time at
which it fires.  Every timer of this program invokes `_execute_job`. -/
structure TkJob where
  id : Nat
  delay : Int
  fire_at : Int
deriving DecidableEq

/-- The state of a `WordCyclerApp` together with its environment: the
configuration manager, the word bank and its persisted copy `disk_words`,
the shuffled cycle list and index, the displayed text variables, the
pause button label, the scheduler slots (`paused`, `current_job`,
`job_callback`, `remaining_ms`, `job_end_time`), the clock `now`
(`time.time() * 1000`, in integer milliseconds), and the tk timer queue
(`tk_jobs`, with `tk_next` the next fresh timer identifier). -/
structure AppState where
  cfg : ConfigManager
  word_bank : List WordEntry
  disk_words : List WordEntry
  words : List WordEntry
  current_index : Nat
  word_var : String
  reading_var : String
  meaning_var : String
  pause_button : String
  paused : Bool
  current_job : Option Nat
  job_callback : Option Cb
  remaining_ms : Option Int
  job_end_time : Option Int
  now : Int
  tk_jobs : List TkJob
  tk_next : Nat
deriving DecidableEq

/-- `WordCyclerApp._clear_job`: cancel the current tk timer if any, then
clear all four scheduler slots. -/
def clear_job (s : AppState) : AppState :=
  let jobs :=
    match s.current_job with
    | some id => s.tk_jobs.filter fun j => j.id ≠ id
    | none => s.tk_jobs
  { s with tk_jobs := jobs, current_job := none, job_callback := none,
           remaining_ms := none, job_end_time := none }

/-- `WordCyclerApp._schedule_after`: clear any prior job, store the
callback and delay; when not paused, record the deadline and arm a fresh
tk timer, otherwise leave the deadline empty and arm nothing. -/
def schedule_after (delay_ms : Int) (cb : Cb) (s : AppState) : AppState :=
  let s := clear_job s
  let s := { s with job_callback := some cb, remaining_ms := some delay_ms }
  if s.paused then
    { s with job_end_time := none }
  else
    { s with job_end_time := some (s.now + delay_ms),
             tk_jobs := s.tk_jobs ++ [⟨s.tk_next, delay_ms, s.now + delay_ms⟩],
             current_job := some s.tk_next,
             tk_next := s.tk_next + 1 }

/-- `WordCyclerApp.display_word`: with no words, show the sentinel text
and return without scheduling; otherwise show the current word, blank the
reading and meaning, and arm `display_meaning` after
`showMeaningTimer * 1000` milliseconds. -/
def display_word (s : AppState) : AppState :=
  if s.words = [] then
    { s with word_var := "단어 없음", reading_var := "", meaning_var := "" }
  else
    let entry := s.words.getD s.current_index ⟨"", "", ""⟩
    let s := { s with word_var := entry.word, reading_var := "", meaning_var := "" }
    schedule_after (s.cfg.data.showMeaningTimer * 1000) Cb.displayMeaning s

/-- `WordCyclerApp.display_meaning`: reveal the reading and meaning of the
current entry (the word list is indexed unguarded) and arm `advance_word`
after `nextWordTimer * 1000` milliseconds. -/
def display_meaning (s : AppState) : AppState :=
  let entry := s.words.getD s.current_index ⟨"", "", ""⟩
  let s := { s with reading_var := entry.reading, meaning_var := entry.meaning }
  schedule_after (s.cfg.data.nextWordTimer * 1000) Cb.advanceWord s

/-- `WordCyclerApp.advance_word`: with no words, return; otherwise step
the index modulo the list length, reshuffle on wraparound to 0, and call
`display_word`.  `shuffle` stands for `random.shuffle`. -/
def advance_word (shuffle : List WordEntry → List WordEntry) (s : AppState) : AppState :=
  if s.words = [] then s
  else
    display_word
      { s with current_index := (s.current_index + 1) % s.words.length,
               words := if (s.current_index + 1) % s.words.length = 0
                        then shuffle s.words else s.words }

/-- Invocation of a stored callback value. -/
def runCb (shuffle : List WordEntry → List WordEntry) : Cb → AppState → AppState
  | .displayMeaning => display_meaning
  | .advanceWord => advance_word shuffle

/-- `WordCyclerApp.pause`: if already paused do nothing; otherwise set the
paused flag, and if a timer is pending cancel it and capture the
remaining delay `max 0 (deadline - now)`, clearing the deadline; finally
relabel the pause button. -/
def pause (s : AppState) : AppState :=
  if s.paused then s
  else
    let s := { s with paused := true }
    let s :=
      match s.current_job with
      | some id =>
        let s := { s with tk_jobs := s.tk_jobs.filter (fun j => j.id ≠ id),
                          current_job := none }
        match s.job_end_time with
        | some endt =>
          { s with remaining_ms := some (max 0 (endt - s.now)), job_end_time := none }
        | none => s
      | none => s
    { s with pause_button := "재생" }

/-- `WordCyclerApp._resume_schedule`: with no stored callback or remaining
delay do nothing; with a non-positive remaining delay clear the slots and
invoke the callback synchronously; otherwise record a new deadline and
arm a fresh tk timer with the stored remaining delay. -/
def resume_schedule (shuffle : List WordEntry → List WordEntry) (s : AppState) : AppState :=
  match s.job_callback, s.remaining_ms with
  | some cb, some rem =>
    let delay := max 0 rem
    if delay ≤ 0 then
      let s := { s with job_callback := none, remaining_ms := none, job_end_time := none }
      runCb shuffle cb s
    else
      { s with job_end_time := some (s.now + delay),
               tk_jobs := s.tk_jobs ++ [⟨s.tk_next, delay, s.now + delay⟩],
               current_job := some s.tk_next,
               tk_next := s.tk_next + 1 }
  | _, _ => s

/-- `WordCyclerApp.resume`: if not paused do nothing; otherwise clear the
paused flag, relabel the pause button and re-arm via `_resume_schedule`. -/
def resume (shuffle : List WordEntry → List WordEntry) (s : AppState) : AppState :=
  if s.paused then
    let s := { s with paused := false, pause_button := "일시정지" }
    resume_schedule shuffle s
  else s

/-- `WordCyclerApp._execute_job`, the body of every tk timer: forget the
fired timer, take the stored callback out of its slot, clear the slots,
and invoke the callback if one was stored. -/
def execute_job (shuffle : List WordEntry → List WordEntry) (s : AppState) : AppState :=
  let s := { s with current_job := none }
  let cb := s.job_callback
  let s := { s with job_callback := none, remaining_ms := none, job_end_time := none }
  match cb with
  | some c => runCb shuffle c s
  | none => s

/-- The tk event loop firing a due timer: remove it from the queue and run
`_execute_job`. -/
def tk_fire (shuffle : List WordEntry → List WordEntry) (s : AppState) : AppState :=
  match s.tk_jobs with
  | [] => s
  | j :: rest =>
    if j.fire_at ≤ s.now then execute_job shuffle { s with tk_jobs := rest } else s

/-- Passage of wall-clock time between events. -/
def tick (dt : Nat) (s : AppState) : AppState :=
  { s with now := s.now + dt }

/-- The restart tail shared verbatim by `WordCyclerApp.set_words` and
`WordCyclerApp.update_config`: remember the paused flag, clear any
pending job, restart from `display_word`, and restore the paused flag
and button label when the app was paused. -/
def restart (t : AppState) : AppState :=
  let was_paused := t.paused
  let t := clear_job t
  let t := display_word t
  if was_paused then { t with paused := true, pause_button := "재생" } else t

/-- `WordCyclerApp.set_words`: replace the word bank, copy it into the
cycle list, shuffle when non-empty, reset the index, then restart the
cycle. -/
def set_words (shuffle : List WordEntry → List WordEntry) (ws : List WordEntry)
    (s : AppState) : AppState :=
  restart
    { s with word_bank := ws, words := if ws = [] then ws else shuffle ws,
             current_index := 0 }

/-- `WordCyclerApp.update_config`: update and persist the configuration,
then restart the cycle.  (The `apply_topmost` window attribute call has
no modelled effect.) -/
def update_config (show_meaning_timer next_word_timer : PyVal) (always_on_top : Bool)
    (s : AppState) : AppState :=
  restart
    { s with cfg := s.cfg.update show_meaning_timer next_word_timer always_on_top }

/-- `WordCyclerApp.save_words`: persist the word list to words.json, make
it the word bank, and reset the cycle via `set_words`.  In the model the
disk write is the `disk_words` update; the caller decides whether it
succeeded. -/
def app_save_words (shuffle : List WordEntry → List WordEntry) (ws : List WordEntry)
    (s : AppState) : AppState :=
  let s := { s with disk_words := ws, word_bank := ws }
  set_words shuffle s.word_bank s

/-- The state `WordCyclerApp.__init__` builds before its final
`set_words` call: empty display, unpaused, no job, empty timer queue. -/
def baseState (cfg : ConfigManager) (ws : List WordEntry) (now0 : Int) : AppState :=
  { cfg := cfg, word_bank := ws, disk_words := ws, words := [], current_index := 0,
    word_var := "", reading_var := "", meaning_var := "", pause_button := "일시정지",
    paused := false, current_job := none, job_callback := none, remaining_ms := none,
    job_end_time := none, now := now0, tk_jobs := [], tk_next := 0 }

/-- The state after `WordCyclerApp.__init__`, which ends with
`set_words(word_bank)`. -/
def initState (shuffle : List WordEntry → List WordEntry) (cfg : ConfigManager)
    (ws : List WordEntry) (now0 : Int) : AppState :=
  set_words shuffle ws (baseState cfg ws now0)

/-- The operations an execution interleaves: the user, timer and settings
driven calls of the app, plus passage of time and timer firing. -/
inductive Act where
  | displayWord
  | displayMeaning
  | advanceWord
  | doPause
  | doResume
  | setWords (ws : List WordEntry)
  | updateConfig (smt nwt : PyVal) (aot : Bool)
  | tick (dt : Nat)
  | fire
deriving DecidableEq

/-- Interpretation of one operation. -/
def stepAct (shuffle : List WordEntry → List WordEntry) : Act → AppState → AppState
  | .displayWord => display_word
  | .displayMeaning => display_meaning
  | .advanceWord => advance_word shuffle
  | .doPause => pause
  | .doResume => resume shuffle
  | .setWords ws => set_words shuffle ws
  | .updateConfig smt nwt aot => update_config smt nwt aot
  | .tick dt => tick dt
  | .fire => tk_fire shuffle

/-- Interpretation of a sequence of operations. -/
def runActs (shuffle : List WordEntry → List WordEntry) (acts : List Act)
    (s : AppState) : AppState :=
  acts.foldl (fun s a => stepAct shuffle a s) s

/-- The scheduler invariant: at most one tk timer is pending, every
pending timer is the one registered in `current_job`, pending timer
identifiers are below the freshness counter, and a paused app has no
pending timer. -/
def SchedInv (s : AppState) : Prop :=
  s.tk_jobs.length ≤ 1 ∧
  (∀ j ∈ s.tk_jobs, s.current_job = some j.id) ∧
  (∀ j ∈ s.tk_jobs, j.id < s.tk_next) ∧
  (s.paused = true → s.tk_jobs = [] ∧ s.current_job = none)

/-- The guard invariant behind `display_meaning`: whenever the stored
callback is `display_meaning` (which indexes the word list unguarded),
the word list is non-empty. -/
def MeaningInv (s : AppState) : Prop :=
  s.job_callback = some Cb.displayMeaning → s.words ≠ []

/-- The settings dialog state relevant to word import: its editable word
list alongside the app. -/
structure ImportState where
  settings_words : List WordEntry
  app : AppState
deriving DecidableEq

/-- `SettingsWindow._import_words`, from the point where the file was
loaded into `imported`: remember the previous list, show the imported
one, then persist through `app.save_words`.  `saveOk` tells whether the
file write succeeded; on an `OSError` the previous list is put back and
pushed to the app via `set_words`, and the disk is untouched. -/
def import_words (shuffle : List WordEntry → List WordEntry) (saveOk : Bool)
    (imported : List WordEntry) (st : ImportState) : ImportState :=
  let previous := st.settings_words
  let st := { st with settings_words := imported }
  if saveOk then
    { st with app := app_save_words shuffle imported st.app }
  else
    { settings_words := previous, app := set_words shuffle previous st.app }

/-- A concrete configuration manager for witnesses. -/
def sampleCfg : ConfigManager := { data := DEFAULT_CONFIG, file := DEFAULT_CONFIG }

/-- Concrete word entries for witnesses. -/
def sampleWord1 : WordEntry := { word := "猫", reading := "ねこ", meaning := "cat" }

/-- Second concrete word entry for witnesses. -/
def sampleWord2 : WordEntry := { word := "犬", reading := "いぬ", meaning := "dog" }

/-- A concrete running app state for witnesses: freshly initialised with
two words at time 0 (arming the 3000 ms reveal timer), observed at time
1000 (so 2000 ms of the delay remain). -/
def sampleRunning : AppState :=
  tick 1000 (initState (fun l => l) sampleCfg [sampleWord1, sampleWord2] 0)

/-- A concrete app state with an empty word list for witnesses. -/
def sampleEmpty : AppState := baseState sampleCfg [] 0

/-- A concrete settings-dialog state for witnesses, whose word list agrees
with the app word bank. -/
def sampleImport : ImportState :=
  { settings_words := [sampleWord1, sampleWord2], app := sampleRunning }

end JLPT

namespace JLPT

/-! ## Helper lemmas -/

theorem parse_positive_int_pos (v : PyVal) (fb : Int) (hfb : 0 < fb) :
    0 < parse_positive_int v fb := by
  unfold parse_positive_int
  cases h : pyToInt v with
  | none => exact hfb
  | some n =>
    by_cases hn : n > 0
    · simp [hn]
    · simp [hn, hfb]

theorem parse_positive_int_valid (v : PyVal) (fb n : Int) (h : pyToInt v = some n)
    (hn : 0 < n) : parse_positive_int v fb = n := by
  unfold parse_positive_int
  simp [h, hn]

theorem parse_positive_int_invalid (v : PyVal) (fb : Int)
    (h : pyToInt v = none ∨ ∃ n : Int, pyToInt v = some n ∧ n ≤ 0) :
    parse_positive_int v fb = fb := by
  unfold parse_positive_int
  rcases h with h | ⟨n, h, hn⟩
  · simp [h]
  · simp [h, not_lt.mpr hn]

/-! ## C4: per-field config merging -/

/-- C4: config merging is per-field, not wholesale: a timer field whose
value coerces to a positive integer is kept, any other timer value is
replaced by that field's default, a boolean alwaysOnTop is kept and any
other alwaysOnTop value is replaced by the default true; in particular a
record missing alwaysOnTop merges to the default true with valid timer
fields preserved. -/
theorem merge_with_defaults_per_field :
    (∀ r : RawConfig, ∀ n : Int, pyToInt r.showMeaningTimer = some n → 0 < n →
      (merge_with_defaults (some r)).showMeaningTimer = n) ∧
    (∀ r : RawConfig,
      (pyToInt r.showMeaningTimer = none ∨
        ∃ n : Int, pyToInt r.showMeaningTimer = some n ∧ n ≤ 0) →
      (merge_with_defaults (some r)).showMeaningTimer = 3) ∧
    (∀ r : RawConfig, ∀ n : Int, pyToInt r.nextWordTimer = some n → 0 < n →
      (merge_with_defaults (some r)).nextWordTimer = n) ∧
    (∀ r : RawConfig,
      (pyToInt r.nextWordTimer = none ∨
        ∃ n : Int, pyToInt r.nextWordTimer = some n ∧ n ≤ 0) →
      (merge_with_defaults (some r)).nextWordTimer = 5) ∧
    (∀ r : RawConfig, ∀ b : Bool, r.alwaysOnTop = PyVal.vbool b →
      (merge_with_defaults (some r)).alwaysOnTop = b) ∧
    (∀ r : RawConfig, (∀ b : Bool, r.alwaysOnTop ≠ PyVal.vbool b) →
      (merge_with_defaults (some r)).alwaysOnTop = true) ∧
    (∀ n₁ n₂ : Int, 0 < n₁ → 0 < n₂ →
      merge_with_defaults (some ⟨PyVal.vint n₁, PyVal.vint n₂, PyVal.vnone⟩)
        = { showMeaningTimer := n₁, nextWordTimer := n₂, alwaysOnTop := true }) := by
  refine ⟨?_, ?_, ?_, ?_, ?_, ?_, ?_⟩
  · intro r n h hn
    simp [merge_with_defaults, parse_positive_int_valid r.showMeaningTimer _ n h hn]
  · intro r h
    simp [merge_with_defaults, parse_positive_int_invalid r.showMeaningTimer _ h,
      DEFAULT_CONFIG]
  · intro r n h hn
    simp [merge_with_defaults, parse_positive_int_valid r.nextWordTimer _ n h hn]
  · intro r h
    simp [merge_with_defaults, parse_positive_int_invalid r.nextWordTimer _ h,
      DEFAULT_CONFIG]
  · intro r b h
    simp [merge_with_defaults, h]
  · intro r h
    cases hb : r.alwaysOnTop with
    | vbool b => exact absurd hb (h b)
    | vnone => simp [merge_with_defaults, hb, DEFAULT_CONFIG]
    | vint n => simp [merge_with_defaults, hb, DEFAULT_CONFIG]
    | vstr s => simp [merge_with_defaults, hb, DEFAULT_CONFIG]
  · intro n₁ n₂ h₁ h₂
    simp [merge_with_defaults, DEFAULT_CONFIG,
      parse_positive_int_valid (PyVal.vint n₁) _ n₁ rfl h₁,
      parse_positive_int_valid (PyVal.vint n₂) _ n₂ rfl h₂]

/-- Witness for C4 at concrete inputs: a record missing alwaysOnTop with
timers 2 and 9 merges to those timers and the default true, and a record
whose showMeaningTimer is the non-numeric string x falls back to 3 while
the valid sibling is kept. -/
theorem merge_with_defaults_per_field_witness :
    merge_with_defaults (some ⟨PyVal.vint 2, PyVal.vint 9, PyVal.vnone⟩)
      = { showMeaningTimer := 2, nextWordTimer := 9, alwaysOnTop := true } ∧
    (merge_with_defaults
        (some ⟨PyVal.vstr "x", PyVal.vint 9, PyVal.vnone⟩)).showMeaningTimer = 3 ∧
    (merge_with_defaults
        (some ⟨PyVal.vstr "x", PyVal.vint 9, PyVal.vnone⟩)).nextWordTimer = 9 :=
  ⟨merge_with_defaults_per_field.2.2.2.2.2.2 2 9 (by decide) (by decide),
   merge_with_defaults_per_field.2.1 ⟨PyVal.vstr "x", PyVal.vint 9, PyVal.vnone⟩
     (Or.inl (by decide)),
   merge_with_defaults_per_field.2.2.1 ⟨PyVal.vstr "x", PyVal.vint 9, PyVal.vnone⟩ 9
     (by decide) (by decide)⟩

/-! ## C7: config update coercion and persistence -/

/-- C7: ConfigManager.update coerces each timer value independently (a
value that does not coerce to a positive integer is replaced by the
corresponding default, a positive coercion is kept), so both stored
timers are positive after every update, a showMeaningTimer of 0 is stored
as the default 3, and the merged record is persisted immediately (the
file equals the in-memory data). -/
theorem configManager_update_spec :
    (∀ st : ConfigManager, ∀ smt nwt : PyVal, ∀ aot : Bool,
      0 < (st.update smt nwt aot).data.showMeaningTimer ∧
      0 < (st.update smt nwt aot).data.nextWordTimer ∧
      (st.update smt nwt aot).file = (st.update smt nwt aot).data ∧
      (st.update smt nwt aot).data.alwaysOnTop = aot) ∧
    (∀ st : ConfigManager, ∀ nwt : PyVal, ∀ aot : Bool,
      (st.update (PyVal.vint 0) nwt aot).data.showMeaningTimer = 3) ∧
    (∀ st : ConfigManager, ∀ smt nwt : PyVal, ∀ aot : Bool,
      (pyToInt smt = none ∨ ∃ n : Int, pyToInt smt = some n ∧ n ≤ 0) →
      (st.update smt nwt aot).data.showMeaningTimer = 3) ∧
    (∀ st : ConfigManager, ∀ smt nwt : PyVal, ∀ aot : Bool,
      (pyToInt nwt = none ∨ ∃ n : Int, pyToInt nwt = some n ∧ n ≤ 0) →
      (st.update smt nwt aot).data.nextWordTimer = 5) ∧
    (∀ st : ConfigManager, ∀ smt nwt : PyVal, ∀ aot : Bool, ∀ n : Int,
      pyToInt smt = some n → 0 < n → (st.update smt nwt aot).data.showMeaningTimer = n) ∧
    (∀ st : ConfigManager, ∀ smt nwt : PyVal, ∀ aot : Bool, ∀ n : Int,
      pyToInt nwt = some n → 0 < n → (st.update smt nwt aot).data.nextWordTimer = n) := by
  refine ⟨?_, ?_, ?_, ?_, ?_, ?_⟩
  · intro st smt nwt aot
    exact ⟨parse_positive_int_pos smt _ (by decide),
      parse_positive_int_pos nwt _ (by decide), rfl, rfl⟩
  · intro st nwt aot
    simp [ConfigManager.update,
      parse_positive_int_invalid (PyVal.vint 0) _ (Or.inr ⟨0, rfl, le_refl 0⟩),
      DEFAULT_CONFIG]
  · intro st smt nwt aot h
    simp [ConfigManager.update, parse_positive_int_invalid smt _ h, DEFAULT_CONFIG]
  · intro st smt nwt aot h
    simp [ConfigManager.update, parse_positive_int_invalid nwt _ h, DEFAULT_CONFIG]
  · intro st smt nwt aot n h hn
    simp [ConfigManager.update, parse_positive_int_valid smt _ n h hn]
  · intro st smt nwt aot n h hn
    simp [ConfigManager.update, parse_positive_int_valid nwt _ n h hn]

/-- Witness for C7 at concrete inputs: updating with showMeaningTimer 0
stores the default 3, both stored timers are positive, and the record is
persisted. -/
theorem configManager_update_spec_witness :
    (sampleCfg.update (PyVal.vint 0) (PyVal.vint 9) false).data.showMeaningTimer = 3 ∧
    0 < (sampleCfg.update (PyVal.vint 0) (PyVal.vint 9) false).data.showMeaningTimer ∧
    (sampleCfg.update (PyVal.vint 0) (PyVal.vint 9) false).file
      = (sampleCfg.update (PyVal.vint 0) (PyVal.vint 9) false).data ∧
    (sampleCfg.update (PyVal.vint 0) (PyVal.vint 9) false).data.nextWordTimer = 9 :=
  ⟨configManager_update_spec.2.1 sampleCfg (PyVal.vint 9) false,
   (configManager_update_spec.1 sampleCfg (PyVal.vint 0) (PyVal.vint 9) false).1,
   (configManager_update_spec.1 sampleCfg (PyVal.vint 0) (PyVal.vint 9) false).2.2.1,
   configManager_update_spec.2.2.2.2.2 sampleCfg (PyVal.vint 0) (PyVal.vint 9) false 9
     (by decide) (by decide)⟩

/-! ## C5 and C6: the word loaders -/

theorem clean_word_entries_ok (raw : List RawItem) (h : raw.filterMap cleanItem ≠ []) :
    clean_word_entries raw = Except.ok (raw.filterMap cleanItem) := by
  unfold clean_word_entries
  simp [List.isEmpty_iff, h]

theorem clean_word_entries_error (raw : List RawItem) :
    (∃ e, clean_word_entries raw = Except.error e) ↔ raw.filterMap cleanItem = [] := by
  unfold clean_word_entries
  by_cases h : raw.filterMap cleanItem = [] <;> simp [List.isEmpty_iff, h]

/-- C5 counterexample: the claim says a record whose word field is not a
non-empty string is dropped (and, being the only record here, that a
validation error is then raised), but the loader coerces the JSON null
with Python str, obtaining the non-empty string None, and keeps the
record. -/
theorem load_words_keeps_null_word_field :
    load_words (JsonDoc.list [RawItem.entry PyVal.vnone (PyVal.vstr "x") (PyVal.vstr "y")])
      = Except.ok [{ word := "None", reading := "x", meaning := "y" }] := rfl

/-- C5 as amended: each raw item first has its three field values coerced
to strings Python-style (null to None, booleans to True and False,
numbers to their decimal form) and trimmed; the loaders keep exactly the
items that are dictionaries whose three coerced trimmed fields are all
non-empty, dropping all others silently, and raise a validation error if
and only if no valid record remains (for both JSON and CSV sources) or
the JSON top level is not an array. -/
theorem load_words_spec :
    (∀ items : List RawItem, items.filterMap cleanItem ≠ [] →
      load_words (JsonDoc.list items) = Except.ok (items.filterMap cleanItem)) ∧
    (∀ items : List RawItem,
      ((∃ e, load_words (JsonDoc.list items) = Except.error e) ↔
        items.filterMap cleanItem = [])) ∧
    (∃ e, load_words JsonDoc.notList = Except.error e) ∧
    (∀ it : RawItem, (cleanItem it).isSome ↔
      ∃ w r m : PyVal, it = RawItem.entry w r m ∧
        pyStrip (pyStr w) ≠ "" ∧ pyStrip (pyStr r) ≠ "" ∧ pyStrip (pyStr m) ≠ "") ∧
    (∀ w r m : PyVal,
      pyStrip (pyStr w) ≠ "" → pyStrip (pyStr r) ≠ "" → pyStrip (pyStr m) ≠ "" →
      cleanItem (RawItem.entry w r m) = some
        { word := pyStrip (pyStr w), reading := pyStrip (pyStr r),
          meaning := pyStrip (pyStr m) }) ∧
    (∀ fns rows wName rName mName, resolveHeaders fns = some (wName, rName, mName) →
      ((∃ e, load_words_from_csv (some fns) rows = Except.error e) ↔
        (csvItems fns rows wName rName mName).filterMap cleanItem = [])) := by
  refine ⟨?_, ?_, ⟨_, rfl⟩, ?_, ?_, ?_⟩
  · intro items h
    exact clean_word_entries_ok items h
  · intro items
    exact clean_word_entries_error items
  · intro it
    cases it with
    | notDict => simp [cleanItem]
    | entry w r m =>
      by_cases h : pyStrip (pyStr w) ≠ "" ∧ pyStrip (pyStr r) ≠ "" ∧ pyStrip (pyStr m) ≠ ""
      · simp only [cleanItem, if_pos h]
        simp [RawItem.entry.injEq]
        tauto
      · simp only [cleanItem, if_neg h]
        simp [RawItem.entry.injEq]
        tauto
  · intro w r m hw hr hm
    simp [cleanItem, hw, hr, hm]
  · intro fns rows wName rName mName h
    simp only [load_words_from_csv, h]
    exact clean_word_entries_error _

/-- Witness for C5 at the concrete inputs of the specification: loading
the two-record array whose second record has an empty word yields exactly
the first record, loading a lone record with an empty word raises a
validation error, a non-array top level raises an error, and the CSV
path raises a validation error when every row is invalid. -/
theorem load_words_spec_witness :
    load_words (JsonDoc.list
        [RawItem.entry (PyVal.vstr "食べる") (PyVal.vstr "たべる") (PyVal.vstr "eat"),
         RawItem.entry (PyVal.vstr "") (PyVal.vstr "x") (PyVal.vstr "y")])
      = Except.ok [{ word := "食べる", reading := "たべる", meaning := "eat" }] ∧
    (∃ e, load_words (JsonDoc.list
        [RawItem.entry (PyVal.vstr "") (PyVal.vstr "x") (PyVal.vstr "y")])
      = Except.error e) ∧
    (∃ e, load_words_from_csv (some ["word", "reading", "meaning"]) [["", "b", "c"]]
      = Except.error e) :=
  ⟨(load_words_spec.1
      [RawItem.entry (PyVal.vstr "食べる") (PyVal.vstr "たべる") (PyVal.vstr "eat"),
       RawItem.entry (PyVal.vstr "") (PyVal.vstr "x") (PyVal.vstr "y")]
      (by decide)).trans rfl,
   (load_words_spec.2.1
      [RawItem.entry (PyVal.vstr "") (PyVal.vstr "x") (PyVal.vstr "y")]).mpr (by decide),
   (load_words_spec.2.2.2.2.2 ["word", "reading", "meaning"] [["", "b", "c"]]
      "word" "reading" "meaning" rfl).mpr (by decide)⟩

theorem headerStep_isSome (m : String → Option String) (name k : String) (hk : k ≠ "") :
    (headerStep m name k).isSome ↔ ((m k).isSome ∨ k = normalizeHeader name) := by
  unfold headerStep
  by_cases h1 : name = ""
  · subst h1
    have h0 : normalizeHeader "" = "" := by decide
    simp [h0, hk]
  · by_cases h2 : normalizeHeader name = ""
    · simp [if_neg h1, h2, hk]
    · simp only [if_neg h1, if_neg h2]
      by_cases h3 : k = normalizeHeader name <;> simp [h3]

theorem buildHeaderMap_foldl_isSome (fns : List String) (k : String) (hk : k ≠ "")
    (acc : String → Option String) :
    ((fns.foldl headerStep acc) k).isSome ↔
      ((acc k).isSome ∨ k ∈ fns.map normalizeHeader) := by
  induction fns generalizing acc with
  | nil => simp
  | cons name rest ih =>
    rw [List.foldl_cons, ih (headerStep acc name), headerStep_isSome acc name k hk]
    simp only [List.map_cons, List.mem_cons]
    tauto

theorem buildHeaderMap_isSome (fns : List String) (k : String) (hk : k ≠ "") :
    (buildHeaderMap fns k).isSome ↔ k ∈ fns.map normalizeHeader := by
  unfold buildHeaderMap
  rw [buildHeaderMap_foldl_isSome fns k hk]
  simp

theorem resolveHeaders_isSome (fns : List String) :
    (resolveHeaders fns).isSome ↔
      ("word" ∈ fns.map normalizeHeader ∧ "reading" ∈ fns.map normalizeHeader ∧
        "meaning" ∈ fns.map normalizeHeader) := by
  rw [← buildHeaderMap_isSome fns "word" (by decide),
    ← buildHeaderMap_isSome fns "reading" (by decide),
    ← buildHeaderMap_isSome fns "meaning" (by decide)]
  unfold resolveHeaders
  cases h1 : buildHeaderMap fns "word" <;> cases h2 : buildHeaderMap fns "reading" <;>
    cases h3 : buildHeaderMap fns "meaning" <;> simp

/-- C6: the CSV header check accepts a header row exactly when the field
names, after trimming whitespace, stripping a leading BOM and
lowercasing, include word, reading and meaning; a failed check makes the
loader raise the missing-header error; the mixed-case header row
Word,Reading,Meaning with one valid data row parses successfully; and
the normaliser is BOM-tolerant and case-insensitive. -/
theorem csv_header_matching :
    (∀ fns : List String, (resolveHeaders fns).isSome ↔
        ("word" ∈ fns.map normalizeHeader ∧ "reading" ∈ fns.map normalizeHeader ∧
          "meaning" ∈ fns.map normalizeHeader)) ∧
    (∀ fns rows, resolveHeaders fns = none →
        load_words_from_csv (some fns) rows
          = Except.error "word, reading, meaning 헤더가 모두 포함되어야 합니다.") ∧
    (load_words_from_csv (some ["Word", "Reading", "Meaning"])
        [["食べる", "たべる", "to eat"]]
      = Except.ok [{ word := "食べる", reading := "たべる", meaning := "to eat" }]) ∧
    normalizeHeader "\uFEFFWord" = "word" ∧ normalizeHeader " MEANING " = "meaning" := by
  refine ⟨resolveHeaders_isSome, ?_, rfl, by decide, by decide⟩
  intro fns rows h
  simp only [load_words_from_csv, h]

/-- Witness for C6 at concrete inputs: a header row missing the meaning
column raises the missing-header error, and the mixed-case header row is
accepted by the header check. -/
theorem csv_header_matching_witness :
    load_words_from_csv (some ["word", "reading"]) []
      = Except.error "word, reading, meaning 헤더가 모두 포함되어야 합니다." ∧
    (resolveHeaders ["Word", "Reading", "Meaning"]).isSome :=
  ⟨csv_header_matching.2.1 ["word", "reading"] [] rfl,
   (csv_header_matching.1 ["Word", "Reading", "Meaning"]).mpr (by decide)⟩

/-! ## Scheduler lemmas -/

theorem jobs_nil_of_no_current (s : AppState) (h2 : ∀ j ∈ s.tk_jobs, s.current_job = some j.id)
    (hc : s.current_job = none) : s.tk_jobs = [] := by
  cases hj : s.tk_jobs with
  | nil => rfl
  | cons j rest =>
    have hmem := h2 j (by rw [hj]; exact List.mem_cons_self j rest)
    rw [hc] at hmem
    cases hmem

theorem jobs_all_current (s : AppState)
    (h2 : ∀ j ∈ s.tk_jobs, s.current_job = some j.id) (id : Nat)
    (hc : s.current_job = some id) : ∀ j ∈ s.tk_jobs, j.id = id := by
  intro j hj
  have hcj := h2 j hj
  rw [hc] at hcj
  injection hcj with h
  exact h.symm

theorem jobs_filter_current_nil (s : AppState)
    (h2 : ∀ j ∈ s.tk_jobs, s.current_job = some j.id) (id : Nat)
    (hc : s.current_job = some id) : s.tk_jobs.filter (fun j => j.id ≠ id) = [] := by
  rw [List.filter_eq_nil_iff]
  intro j hj
  simp [jobs_all_current s h2 id hc j hj]

theorem clear_job_eq (s : AppState) (h2 : ∀ j ∈ s.tk_jobs, s.current_job = some j.id) :
    clear_job s =
      { s with tk_jobs := [], current_job := none, job_callback := none,
               remaining_ms := none, job_end_time := none } := by
  unfold clear_job
  cases hc : s.current_job with
  | none => rw [jobs_nil_of_no_current s h2 hc]
  | some id => simp only [jobs_filter_current_nil s h2 id hc]

theorem schedule_after_eq (d : Int) (cb : Cb) (s : AppState)
    (h2 : ∀ j ∈ s.tk_jobs, s.current_job = some j.id) :
    schedule_after d cb s =
      if s.paused then
        { s with tk_jobs := [], current_job := none, job_callback := some cb,
                 remaining_ms := some d, job_end_time := none }
      else
        { s with tk_jobs := [⟨s.tk_next, d, s.now + d⟩], current_job := some s.tk_next,
                 job_callback := some cb, remaining_ms := some d,
                 job_end_time := some (s.now + d), tk_next := s.tk_next + 1 } := by
  unfold schedule_after
  rw [clear_job_eq s h2]
  cases hp : s.paused <;> simp [hp]

theorem schedule_after_fields (d : Int) (cb : Cb) (t : AppState) :
    (schedule_after d cb t).current_index = t.current_index ∧
    (schedule_after d cb t).words = t.words ∧
    (schedule_after d cb t).paused = t.paused ∧
    (schedule_after d cb t).job_callback = some cb ∧
    (schedule_after d cb t).remaining_ms = some d ∧
    (schedule_after d cb t).cfg = t.cfg ∧
    (schedule_after d cb t).word_bank = t.word_bank ∧
    (schedule_after d cb t).disk_words = t.disk_words := by
  unfold schedule_after clear_job
  cases t.current_job <;> cases hp : t.paused <;> simp [hp]

theorem schedInv_clear_job (s : AppState) (h : SchedInv s) : SchedInv (clear_job s) := by
  rw [clear_job_eq s h.2.1]
  simp [SchedInv]

theorem schedInv_schedule_after (d : Int) (cb : Cb) (s : AppState) (h : SchedInv s) :
    SchedInv (schedule_after d cb s) := by
  rw [schedule_after_eq d cb s h.2.1]
  cases hp : s.paused <;> simp [SchedInv, hp]

theorem schedInv_display_word (s : AppState) (h : SchedInv s) : SchedInv (display_word s) := by
  unfold display_word
  by_cases hw : s.words = []
  · simp only [if_pos hw]
    exact h
  · simp only [if_neg hw]
    exact schedInv_schedule_after _ _ _ h

theorem schedInv_display_meaning (s : AppState) (h : SchedInv s) :
    SchedInv (display_meaning s) := by
  unfold display_meaning
  exact schedInv_schedule_after _ _ _ h

theorem schedInv_advance_word (shuffle : List WordEntry → List WordEntry) (s : AppState)
    (h : SchedInv s) : SchedInv (advance_word shuffle s) := by
  unfold advance_word
  by_cases hw : s.words = []
  · simp only [if_pos hw]
    exact h
  · simp only [if_neg hw]
    exact schedInv_display_word _ ⟨h.1, h.2.1, h.2.2.1, h.2.2.2⟩

theorem schedInv_runCb (shuffle : List WordEntry → List WordEntry) (cb : Cb) (s : AppState)
    (h : SchedInv s) : SchedInv (runCb shuffle cb s) := by
  cases cb with
  | displayMeaning => exact schedInv_display_meaning s h
  | advanceWord => exact schedInv_advance_word shuffle s h

theorem pause_eq_paused (s : AppState) (hp : s.paused = true) : pause s = s := by
  unfold pause
  rw [hp]
  rfl

theorem pause_eq_no_job (s : AppState) (hp : s.paused = false) (hc : s.current_job = none) :
    pause s = { s with paused := true, pause_button := "재생" } := by
  unfold pause
  rw [hp]
  simp [hc]

theorem pause_eq_no_deadline (s : AppState) (id : Nat) (hp : s.paused = false)
    (hc : s.current_job = some id) (he : s.job_end_time = none)
    (h2 : ∀ j ∈ s.tk_jobs, s.current_job = some j.id) :
    pause s =
      { s with paused := true, pause_button := "재생", tk_jobs := [],
               current_job := none } := by
  unfold pause
  rw [hp]
  simp [hc, he, jobs_filter_current_nil s h2 id hc]
  exact jobs_all_current s h2 id hc

theorem pause_eq_pending (s : AppState) (id : Nat) (endt : Int) (hp : s.paused = false)
    (hc : s.current_job = some id) (he : s.job_end_time = some endt)
    (h2 : ∀ j ∈ s.tk_jobs, s.current_job = some j.id) :
    pause s =
      { s with paused := true, pause_button := "재생", tk_jobs := [],
               current_job := none, remaining_ms := some (max 0 (endt - s.now)),
               job_end_time := none } := by
  unfold pause
  rw [hp]
  simp [hc, he, jobs_filter_current_nil s h2 id hc]
  exact jobs_all_current s h2 id hc

theorem schedInv_pause (s : AppState) (h : SchedInv s) : SchedInv (pause s) := by
  obtain ⟨h1, h2, h3, h4⟩ := h
  cases hp : s.paused with
  | true => rw [pause_eq_paused s hp]; exact ⟨h1, h2, h3, h4⟩
  | false =>
    cases hc : s.current_job with
    | none =>
      rw [pause_eq_no_job s hp hc]
      have hnil := jobs_nil_of_no_current s h2 hc
      simp [SchedInv, hnil, hc]
    | some id =>
      cases he : s.job_end_time with
      | none =>
        rw [pause_eq_no_deadline s id hp hc he h2]
        simp [SchedInv]
      | some endt =>
        rw [pause_eq_pending s id endt hp hc he h2]
        simp [SchedInv]

theorem resume_schedule_arm (shuffle : List WordEntry → List WordEntry) (s : AppState)
    (cb : Cb) (rem : Int) (hcb : s.job_callback = some cb)
    (hrem : s.remaining_ms = some rem) (hpos : 0 < rem) :
    resume_schedule shuffle s =
      { s with job_end_time := some (s.now + rem),
               tk_jobs := s.tk_jobs ++ [⟨s.tk_next, rem, s.now + rem⟩],
               current_job := some s.tk_next, tk_next := s.tk_next + 1 } := by
  unfold resume_schedule
  rw [hcb, hrem]
  have hmax : max 0 rem = rem := max_eq_right hpos.le
  simp [hmax, not_le.mpr hpos]

theorem resume_schedule_sync (shuffle : List WordEntry → List WordEntry) (s : AppState)
    (cb : Cb) (rem : Int) (hcb : s.job_callback = some cb)
    (hrem : s.remaining_ms = some rem) (hnp : rem ≤ 0) :
    resume_schedule shuffle s =
      runCb shuffle cb
        { s with job_callback := none, remaining_ms := none, job_end_time := none } := by
  unfold resume_schedule
  rw [hcb, hrem]
  have hmax : max 0 rem = 0 := max_eq_left hnp
  simp [hmax]

theorem resume_schedule_skip (shuffle : List WordEntry → List WordEntry) (t : AppState)
    (h : t.job_callback = none ∨ t.remaining_ms = none) :
    resume_schedule shuffle t = t := by
  unfold resume_schedule
  rcases h with h | h
  · rw [h]
  · rw [h]
    cases t.job_callback <;> rfl

theorem resume_eq (shuffle : List WordEntry → List WordEntry) (s : AppState)
    (hp : s.paused = true) :
    resume shuffle s
      = resume_schedule shuffle { s with paused := false, pause_button := "일시정지" } := by
  unfold resume
  rw [hp]
  simp

theorem resume_eq_not_paused (shuffle : List WordEntry → List WordEntry) (s : AppState)
    (hp : s.paused = false) : resume shuffle s = s := by
  unfold resume
  rw [hp]
  simp

theorem schedInv_resume_schedule (shuffle : List WordEntry → List WordEntry) (t : AppState)
    (hjobs : t.tk_jobs = []) (hpf : t.paused = false) :
    SchedInv (resume_schedule shuffle t) := by
  cases hcb : t.job_callback with
  | none =>
    rw [resume_schedule_skip shuffle t (Or.inl hcb)]
    exact ⟨by simp [hjobs], by simp [hjobs], by simp [hjobs], by simp [hpf]⟩
  | some cb =>
    cases hrem : t.remaining_ms with
    | none =>
      rw [resume_schedule_skip shuffle t (Or.inr hrem)]
      exact ⟨by simp [hjobs], by simp [hjobs], by simp [hjobs], by simp [hpf]⟩
    | some rem =>
      by_cases hpos : 0 < rem
      · rw [resume_schedule_arm shuffle t cb rem hcb hrem hpos]
        exact ⟨by simp [hjobs], by simp [hjobs], by simp [hjobs], by simp [hpf]⟩
      · rw [resume_schedule_sync shuffle t cb rem hcb hrem (not_lt.mp hpos)]
        apply schedInv_runCb
        exact ⟨by simp [hjobs], by simp [hjobs], by simp [hjobs], by simp [hpf]⟩

theorem schedInv_resume (shuffle : List WordEntry → List WordEntry) (s : AppState)
    (h : SchedInv s) : SchedInv (resume shuffle s) := by
  cases hp : s.paused with
  | false => rw [resume_eq_not_paused shuffle s hp]; exact h
  | true =>
    obtain ⟨hjobs, hcur⟩ := h.2.2.2 hp
    rw [resume_eq shuffle s hp]
    exact schedInv_resume_schedule shuffle _ hjobs rfl

theorem schedInv_execute_job (shuffle : List WordEntry → List WordEntry) (s : AppState)
    (hjobs : s.tk_jobs = []) : SchedInv (execute_job shuffle s) := by
  unfold execute_job
  cases hcb : s.job_callback with
  | none =>
    simp only [hcb]
    exact ⟨by simp [hjobs], by simp [hjobs], by simp [hjobs], by simp [hjobs]⟩
  | some c =>
    simp only [hcb]
    apply schedInv_runCb
    exact ⟨by simp [hjobs], by simp [hjobs], by simp [hjobs], by simp [hjobs]⟩

theorem schedInv_tk_fire (shuffle : List WordEntry → List WordEntry) (s : AppState)
    (h : SchedInv s) : SchedInv (tk_fire shuffle s) := by
  unfold tk_fire
  cases hj : s.tk_jobs with
  | nil => exact h
  | cons j rest =>
    have hrest : rest = [] := by
      have hlen := h.1
      rw [hj] at hlen
      simpa [List.length_eq_zero] using hlen
    by_cases hdue : j.fire_at ≤ s.now
    · simp only [if_pos hdue]
      exact schedInv_execute_job shuffle _ (by simp [hrest])
    · simp only [if_neg hdue]
      exact h

theorem display_word_paused_cleared (s : AppState) (hp : s.paused = true)
    (hjobs : s.tk_jobs = []) (hcur : s.current_job = none) :
    (display_word s).tk_jobs = [] ∧ (display_word s).current_job = none ∧
      (display_word s).paused = true := by
  unfold display_word
  by_cases hw : s.words = []
  · simp [hw, hjobs, hcur, hp]
  · simp only [if_neg hw]
    rw [schedule_after_eq _ _ _ (by intro j hmem; rw [hjobs] at hmem; cases hmem)]
    simp [hp, hjobs]

theorem schedInv_restart (s : AppState) (h : SchedInv s) : SchedInv (restart s) := by
  unfold restart
  cases hp : s.paused with
  | false =>
    simp only [hp, Bool.false_eq_true, if_false]
    exact schedInv_display_word _ (schedInv_clear_job s h)
  | true =>
    simp only [hp, if_true]
    have hcj : (clear_job s).paused = true ∧ (clear_job s).tk_jobs = [] ∧
        (clear_job s).current_job = none := by
      rw [clear_job_eq s h.2.1]
      exact ⟨hp, rfl, rfl⟩
    obtain ⟨hdj, hdc, hdp⟩ :=
      display_word_paused_cleared (clear_job s) hcj.1 hcj.2.1 hcj.2.2
    exact ⟨by simp [hdj], by simp [hdj], by simp [hdj], by simp [hdj, hdc]⟩

theorem schedInv_set_words (shuffle : List WordEntry → List WordEntry)
    (ws : List WordEntry) (s : AppState) (h : SchedInv s) :
    SchedInv (set_words shuffle ws s) := by
  unfold set_words
  exact schedInv_restart _ ⟨h.1, h.2.1, h.2.2.1, h.2.2.2⟩

theorem schedInv_update_config (smt nwt : PyVal) (aot : Bool) (s : AppState)
    (h : SchedInv s) : SchedInv (update_config smt nwt aot s) := by
  unfold update_config
  exact schedInv_restart _ ⟨h.1, h.2.1, h.2.2.1, h.2.2.2⟩

theorem schedInv_tick (dt : Nat) (s : AppState) (h : SchedInv s) : SchedInv (tick dt s) := by
  unfold tick
  exact ⟨h.1, h.2.1, h.2.2.1, h.2.2.2⟩

theorem schedInv_stepAct (shuffle : List WordEntry → List WordEntry) (a : Act)
    (s : AppState) (h : SchedInv s) : SchedInv (stepAct shuffle a s) := by
  cases a with
  | displayWord => exact schedInv_display_word s h
  | displayMeaning => exact schedInv_display_meaning s h
  | advanceWord => exact schedInv_advance_word shuffle s h
  | doPause => exact schedInv_pause s h
  | doResume => exact schedInv_resume shuffle s h
  | setWords ws => exact schedInv_set_words shuffle ws s h
  | updateConfig smt nwt aot => exact schedInv_update_config smt nwt aot s h
  | tick dt => exact schedInv_tick dt s h
  | fire => exact schedInv_tk_fire shuffle s h

theorem schedInv_runActs (shuffle : List WordEntry → List WordEntry) (acts : List Act)
    (s : AppState) (h : SchedInv s) : SchedInv (runActs shuffle acts s) := by
  induction acts generalizing s with
  | nil => exact h
  | cons a rest ih => exact ih (stepAct shuffle a s) (schedInv_stepAct shuffle a s h)

theorem schedInv_baseState (cfg : ConfigManager) (ws : List WordEntry) (now0 : Int) :
    SchedInv (baseState cfg ws now0) := by
  refine ⟨?_, ?_, ?_, ?_⟩ <;> simp [baseState]

theorem schedInv_initState (shuffle : List WordEntry → List WordEntry)
    (cfg : ConfigManager) (ws : List WordEntry) (now0 : Int) :
    SchedInv (initState shuffle cfg ws now0) :=
  schedInv_set_words shuffle ws _ (schedInv_baseState cfg ws now0)

/-! ## C2: at most one outstanding delayed callback -/

/-- C2: from the initial state, no interleaving of the app operations
(display_word, display_meaning, advance_word, pause, resume, set_words,
update_config, the passage of time and timer firing) ever leaves more
than one tk timer pending: every scheduling operation cancels the prior
pending job before arming a new one. -/
theorem at_most_one_pending_callback (shuffle : List WordEntry → List WordEntry)
    (cfg : ConfigManager) (ws : List WordEntry) (now0 : Int) (acts : List Act) :
    (runActs shuffle acts (initState shuffle cfg ws now0)).tk_jobs.length ≤ 1 :=
  (schedInv_runActs shuffle acts _ (schedInv_initState shuffle cfg ws now0)).1

/-! ## C1: pause captures the remaining delay, resume re-arms with it -/

theorem paused_resume_spec (shuffle : List WordEntry → List WordEntry) (t : AppState)
    (cb : Cb) (rem : Int) (hp : t.paused = true)
    (hcb : t.job_callback = some cb) (hrem : t.remaining_ms = some rem) :
    (0 < rem → resume shuffle t =
      { t with paused := false, pause_button := "일시정지",
               job_end_time := some (t.now + rem),
               tk_jobs := t.tk_jobs ++ [⟨t.tk_next, rem, t.now + rem⟩],
               current_job := some t.tk_next, tk_next := t.tk_next + 1 }) ∧
    (rem ≤ 0 → resume shuffle t =
      runCb shuffle cb
        { t with paused := false, pause_button := "일시정지",
                 job_callback := none, remaining_ms := none,
                 job_end_time := none }) := by
  constructor
  · intro hpos
    rw [resume_eq shuffle t hp]
    rw [resume_schedule_arm shuffle
      { t with paused := false, pause_button := "일시정지" } cb rem hcb hrem hpos]
  · intro hnp
    rw [resume_eq shuffle t hp]
    rw [resume_schedule_sync shuffle
      { t with paused := false, pause_button := "일시정지" } cb rem hcb hrem hnp]

/-- C1: while a delayed callback is pending (a timer is armed with a
deadline) and the app is running, pause captures the remaining delay
(deadline minus current time, floored at 0), clears the deadline,
cancels the timer and keeps the stored callback; after any amount of
time passes, resume re-arms the stored callback with exactly the
captured remaining delay (not the original full delay) when it is
positive, and invokes the stored callback synchronously without
scheduling when it is not. -/
theorem pause_resume_remaining (shuffle : List WordEntry → List WordEntry) (s : AppState)
    (id : Nat) (endt : Int) (cb : Cb)
    (hp : s.paused = false) (hc : s.current_job = some id)
    (he : s.job_end_time = some endt) (hcb : s.job_callback = some cb)
    (h2 : ∀ j ∈ s.tk_jobs, s.current_job = some j.id) :
    (pause s).remaining_ms = some (max 0 (endt - s.now)) ∧
    (pause s).job_end_time = none ∧
    (pause s).current_job = none ∧
    (pause s).tk_jobs = [] ∧
    (pause s).job_callback = some cb ∧
    (pause s).paused = true ∧
    (∀ dt : Nat,
      (0 < max 0 (endt - s.now) →
        resume shuffle (tick dt (pause s)) =
          { tick dt (pause s) with
              paused := false, pause_button := "일시정지",
              job_end_time := some (s.now + dt + max 0 (endt - s.now)),
              tk_jobs := [⟨s.tk_next, max 0 (endt - s.now),
                s.now + dt + max 0 (endt - s.now)⟩],
              current_job := some s.tk_next, tk_next := s.tk_next + 1 }) ∧
      (max 0 (endt - s.now) ≤ 0 →
        resume shuffle (tick dt (pause s)) =
          runCb shuffle cb
            { tick dt (pause s) with
                paused := false, pause_button := "일시정지",
                job_callback := none, remaining_ms := none,
                job_end_time := none })) := by
  have hpe := pause_eq_pending s id endt hp hc he h2
  refine ⟨?_, ?_, ?_, ?_, ?_, ?_, ?_⟩
  · rw [hpe]
  · rw [hpe]
  · rw [hpe]
  · rw [hpe]
  · rw [hpe]
    exact hcb
  · rw [hpe]
  · intro dt
    have hps := paused_resume_spec shuffle (tick dt (pause s)) cb (max 0 (endt - s.now))
      (by simp [hpe, tick]) (by simp [hpe, tick, hcb]) (by simp [hpe, tick])
    constructor
    · intro hpos
      rw [hps.1 hpos, hpe]
      simp [tick, add_assoc]
    · intro hnp
      rw [hps.2 hnp]

/-- Witness for C1 at a concrete state: a running app with a timer armed
at time 0 for 3000 ms, observed at time 1000; pause captures 2000 ms, and
after 500 ms more, resume re-arms a fresh timer with a 2000 ms delay
(deadline 3500), not the original 3000 ms. -/
theorem pause_resume_remaining_witness :
    (pause sampleRunning).remaining_ms = some 2000 ∧
    (pause sampleRunning).job_end_time = none ∧
    resume (fun l => l) (tick 500 (pause sampleRunning)) =
      { tick 500 (pause sampleRunning) with
          paused := false, pause_button := "일시정지",
          job_end_time := some 3500,
          tk_jobs := [⟨1, 2000, 3500⟩],
          current_job := some 1, tk_next := 2 } := by
  have h := pause_resume_remaining (fun l => l) sampleRunning 0 3000 Cb.displayMeaning
    (by decide) (by decide) (by decide) (by decide) (by decide)
  exact ⟨h.1, h.2.1, ((h.2.2.2.2.2.2 500).1 (by decide)).trans (by rfl)⟩

/-! ## C3: advance_word steps the index, reshuffles on wrap -/

/-- C3: with a non-empty word list, advance_word sets the index to
(index + 1) mod length; when this wraps to 0 the list is replaced by its
shuffle, which is a permutation of the previous list, and otherwise the
list is unchanged; the result is display_word applied to the stepped
state. -/
theorem advance_word_spec (shuffle : List WordEntry → List WordEntry)
    (hsh : ∀ l : List WordEntry, List.Perm (shuffle l) l)
    (s : AppState) (hw : s.words ≠ []) :
    (advance_word shuffle s).current_index = (s.current_index + 1) % s.words.length ∧
    (advance_word shuffle s).words
      = (if (s.current_index + 1) % s.words.length = 0 then shuffle s.words
         else s.words) ∧
    ((s.current_index + 1) % s.words.length = 0 →
      List.Perm (advance_word shuffle s).words s.words) ∧
    ((s.current_index + 1) % s.words.length ≠ 0 →
      (advance_word shuffle s).words = s.words) ∧
    advance_word shuffle s =
      display_word
        { s with current_index := (s.current_index + 1) % s.words.length,
                 words := if (s.current_index + 1) % s.words.length = 0
                          then shuffle s.words else s.words } := by
  have hadv : advance_word shuffle s =
      display_word
        { s with current_index := (s.current_index + 1) % s.words.length,
                 words := if (s.current_index + 1) % s.words.length = 0
                          then shuffle s.words else s.words } := by
    unfold advance_word
    rw [if_neg hw]
  have hfields : ∀ t : AppState,
      (display_word t).current_index = t.current_index ∧
        (display_word t).words = t.words := by
    intro t
    unfold display_word
    by_cases hwt : t.words = []
    · simp [hwt]
    · rw [if_neg hwt]
      exact ⟨(schedule_after_fields _ _ _).1, (schedule_after_fields _ _ _).2.1⟩
  refine ⟨?_, ?_, ?_, ?_, hadv⟩
  · rw [hadv]
    exact (hfields _).1
  · rw [hadv]
    exact (hfields _).2
  · intro h0
    rw [hadv, (hfields _).2]
    simp only [h0, if_pos rfl]
    exact hsh s.words
  · intro h0
    rw [hadv, (hfields _).2]
    simp [h0]

/-- Witness for C3 at a concrete state: two words at the last index;
advancing wraps to index 0 and the reversed list (the concrete shuffle)
is a permutation of the previous one. -/
theorem advance_word_spec_witness :
    (advance_word List.reverse { sampleRunning with current_index := 1 }).current_index
        = 0 ∧
    List.Perm (advance_word List.reverse { sampleRunning with current_index := 1 }).words
      [sampleWord1, sampleWord2] := by
  have h := advance_word_spec List.reverse (fun l => List.reverse_perm l)
    { sampleRunning with current_index := 1 } (by decide)
  exact ⟨h.1.trans (by decide), (h.2.2.1 (by decide)).trans (by decide)⟩

/-! ## C8: config change restarts the cycle from display_word -/

theorem display_word_eq_empty (t : AppState) (hw : t.words = []) :
    display_word t =
      { t with word_var := "단어 없음", reading_var := "", meaning_var := "" } := by
  unfold display_word
  rw [if_pos hw]

theorem display_word_eq_nonempty (t : AppState) (hw : t.words ≠ [])
    (h2 : ∀ j ∈ t.tk_jobs, t.current_job = some j.id) :
    display_word t =
      if t.paused then
        { t with word_var := (t.words.getD t.current_index ⟨"", "", ""⟩).word,
                 reading_var := "", meaning_var := "",
                 tk_jobs := [], current_job := none,
                 job_callback := some Cb.displayMeaning,
                 remaining_ms := some (t.cfg.data.showMeaningTimer * 1000),
                 job_end_time := none }
      else
        { t with word_var := (t.words.getD t.current_index ⟨"", "", ""⟩).word,
                 reading_var := "", meaning_var := "",
                 tk_jobs := [⟨t.tk_next, t.cfg.data.showMeaningTimer * 1000,
                   t.now + t.cfg.data.showMeaningTimer * 1000⟩],
                 current_job := some t.tk_next,
                 job_callback := some Cb.displayMeaning,
                 remaining_ms := some (t.cfg.data.showMeaningTimer * 1000),
                 job_end_time := some (t.now + t.cfg.data.showMeaningTimer * 1000),
                 tk_next := t.tk_next + 1 } := by
  unfold display_word
  rw [if_neg hw]
  rw [schedule_after_eq _ Cb.displayMeaning
    { t with word_var := (t.words.getD t.current_index ⟨"", "", ""⟩).word,
             reading_var := "", meaning_var := "" } h2]

/-- C8: a config change persists the merged configuration, cancels every
previously pending tk timer, and restarts the cycle from display_word
immediately (with a non-empty word list the current word is shown with
blank reading and meaning, display_meaning is the stored callback with
the new reveal delay, and when running a single fresh timer is armed with
that delay), regardless of which phase was in progress; when the app was
paused, the paused flag and the pause-button label are restored and no
timer is armed. -/
theorem restart_spec (t : AppState)
    (h2 : ∀ j ∈ t.tk_jobs, t.current_job = some j.id)
    (h3 : ∀ j ∈ t.tk_jobs, j.id < t.tk_next) :
    (restart t).cfg = t.cfg ∧
    (restart t).words = t.words ∧
    (restart t).current_index = t.current_index ∧
    (t.paused = true → (restart t).paused = true ∧
      (restart t).pause_button = "재생" ∧ (restart t).tk_jobs = []) ∧
    (t.paused = false → (restart t).paused = false) ∧
    (t.words ≠ [] →
      (restart t).word_var = (t.words.getD t.current_index ⟨"", "", ""⟩).word ∧
      (restart t).reading_var = "" ∧ (restart t).meaning_var = "" ∧
      (restart t).job_callback = some Cb.displayMeaning ∧
      (restart t).remaining_ms = some (t.cfg.data.showMeaningTimer * 1000)) ∧
    (t.paused = false → t.words ≠ [] →
      ∃ j : TkJob, (restart t).tk_jobs = [j] ∧
        j.delay = t.cfg.data.showMeaningTimer * 1000) ∧
    (∀ j ∈ t.tk_jobs, ∀ j' ∈ (restart t).tk_jobs, j'.id ≠ j.id) := by
  simp only [restart]
  rw [clear_job_eq t h2]
  by_cases hw : t.words = []
  · rw [display_word_eq_empty
      { t with tk_jobs := [], current_job := none, job_callback := none,
               remaining_ms := none, job_end_time := none } hw]
    refine ⟨?_, ?_, ?_, ?_, ?_, ?_, ?_, ?_⟩
    · cases hp : t.paused <;> simp [hp]
    · cases hp : t.paused <;> simp [hp]
    · cases hp : t.paused <;> simp [hp]
    · intro hp
      simp [hp]
    · intro hp
      simp [hp]
    · intro hw'
      exact absurd hw hw'
    · intro _ hw'
      exact absurd hw hw'
    · intro j hj j' hj'
      cases hp : t.paused <;> simp [hp] at hj'
  · rw [display_word_eq_nonempty
      { t with tk_jobs := [], current_job := none, job_callback := none,
               remaining_ms := none, job_end_time := none } hw
      (by intro j hj; cases hj)]
    refine ⟨?_, ?_, ?_, ?_, ?_, ?_, ?_, ?_⟩
    · cases hp : t.paused <;> simp [hp]
    · cases hp : t.paused <;> simp [hp]
    · cases hp : t.paused <;> simp [hp]
    · intro hp
      simp [hp]
    · intro hp
      simp [hp]
    · intro hw'
      cases hp : t.paused <;> simp [hp]
    · intro hp hw'
      simp [hp]
    · intro j hj j' hj'
      have hid := h3 j hj
      cases hp : t.paused <;> simp [hp] at hj'
      rw [hj']
      simp only []
      omega

theorem update_config_restart (smt nwt : PyVal) (aot : Bool) (s : AppState)
    (hInv : SchedInv s) :
    (update_config smt nwt aot s).cfg = s.cfg.update smt nwt aot ∧
    (s.paused = true → (update_config smt nwt aot s).paused = true ∧
      (update_config smt nwt aot s).pause_button = "재생" ∧
      (update_config smt nwt aot s).tk_jobs = []) ∧
    (s.paused = false → (update_config smt nwt aot s).paused = false) ∧
    (s.words ≠ [] →
      (update_config smt nwt aot s).word_var
        = (s.words.getD s.current_index ⟨"", "", ""⟩).word ∧
      (update_config smt nwt aot s).reading_var = "" ∧
      (update_config smt nwt aot s).meaning_var = "" ∧
      (update_config smt nwt aot s).job_callback = some Cb.displayMeaning ∧
      (update_config smt nwt aot s).remaining_ms
        = some ((s.cfg.update smt nwt aot).data.showMeaningTimer * 1000)) ∧
    (s.paused = false → s.words ≠ [] →
      ∃ j : TkJob, (update_config smt nwt aot s).tk_jobs = [j] ∧
        j.delay = (s.cfg.update smt nwt aot).data.showMeaningTimer * 1000) ∧
    (∀ j ∈ s.tk_jobs, ∀ j' ∈ (update_config smt nwt aot s).tk_jobs, j'.id ≠ j.id) := by
  have hr := restart_spec { s with cfg := s.cfg.update smt nwt aot } hInv.2.1 hInv.2.2.1
  exact ⟨hr.1, hr.2.2.2.1, hr.2.2.2.2.1, hr.2.2.2.2.2.1, hr.2.2.2.2.2.2.1,
    hr.2.2.2.2.2.2.2⟩

/-- Witness for C8 at concrete states: while running, changing the timers
to 7 and 9 persists them, shows the current word with blank reveal, arms
one fresh timer with the new 7000 ms delay whose identifier differs from
the cancelled one, and leaves the app running; on the paused app the
paused flag and the pause-button label are restored with no timer
armed. -/
theorem update_config_restart_witness :
    (update_config (PyVal.vint 7) (PyVal.vint 9) true sampleRunning).cfg.data.showMeaningTimer
        = 7 ∧
    (update_config (PyVal.vint 7) (PyVal.vint 9) true sampleRunning).word_var = "猫" ∧
    (update_config (PyVal.vint 7) (PyVal.vint 9) true sampleRunning).paused = false ∧
    (∃ j : TkJob,
      (update_config (PyVal.vint 7) (PyVal.vint 9) true sampleRunning).tk_jobs = [j] ∧
        j.delay = 7000) ∧
    (update_config (PyVal.vint 7) (PyVal.vint 9) true (pause sampleRunning)).paused
        = true ∧
    (update_config (PyVal.vint 7) (PyVal.vint 9) true (pause sampleRunning)).pause_button
        = "재생" := by
  have h := update_config_restart (PyVal.vint 7) (PyVal.vint 9) true sampleRunning
    ⟨by decide, by decide, by decide, by decide⟩
  have hq := update_config_restart (PyVal.vint 7) (PyVal.vint 9) true (pause sampleRunning)
    ⟨by decide, by decide, by decide, by decide⟩
  refine ⟨by rw [h.1]; decide, ?_, ?_, ?_, ?_, ?_⟩
  · exact ((h.2.2.2.1 (by decide)).1).trans (by decide)
  · exact h.2.2.1 (by decide)
  · obtain ⟨j, hj, hd⟩ := h.2.2.2.2.1 (by decide) (by decide)
    exact ⟨j, hj, hd.trans (by decide)⟩
  · exact ((hq.2.1 (by decide)).1)
  · exact ((hq.2.1 (by decide)).2.1)

/-! ## C9: empty word list shows the sentinel and never reaches display_meaning -/

theorem shuffle_ne_nil (shuffle : List WordEntry → List WordEntry)
    (hsh : ∀ l : List WordEntry, (shuffle l).length = l.length)
    (l : List WordEntry) (hl : l ≠ []) : shuffle l ≠ [] := by
  intro he
  apply hl
  have hlen := hsh l
  rw [he] at hlen
  exact List.length_eq_zero.mp hlen.symm

theorem meaningInv_display_word (t : AppState) (h : MeaningInv t) :
    MeaningInv (display_word t) := by
  unfold display_word
  by_cases hw : t.words = []
  · rw [if_pos hw]
    intro hcb
    exact (h hcb hw).elim
  · rw [if_neg hw]
    intro hcb
    rw [(schedule_after_fields _ _ _).2.1]
    exact hw

theorem meaningInv_display_meaning (t : AppState) : MeaningInv (display_meaning t) := by
  intro hcb
  have hcb' : (display_meaning t).job_callback = some Cb.advanceWord := by
    unfold display_meaning
    exact (schedule_after_fields _ _ _).2.2.2.1
  rw [hcb'] at hcb
  cases hcb

theorem meaningInv_advance_word (shuffle : List WordEntry → List WordEntry)
    (hsh : ∀ l : List WordEntry, (shuffle l).length = l.length)
    (t : AppState) (h : MeaningInv t) : MeaningInv (advance_word shuffle t) := by
  unfold advance_word
  by_cases hw : t.words = []
  · rw [if_pos hw]
    exact h
  · rw [if_neg hw]
    apply meaningInv_display_word
    intro _
    by_cases hidx : (t.current_index + 1) % t.words.length = 0
    · simp only [hidx, if_pos rfl]
      exact shuffle_ne_nil shuffle hsh t.words hw
    · simp only [if_neg hidx]
      exact hw

theorem meaningInv_pause (s : AppState) (h : MeaningInv s)
    (h2 : ∀ j ∈ s.tk_jobs, s.current_job = some j.id) : MeaningInv (pause s) := by
  cases hp : s.paused with
  | true =>
    rw [pause_eq_paused s hp]
    exact h
  | false =>
    cases hc : s.current_job with
    | none =>
      rw [pause_eq_no_job s hp hc]
      intro hcb
      exact h hcb
    | some id =>
      cases he : s.job_end_time with
      | none =>
        rw [pause_eq_no_deadline s id hp hc he h2]
        intro hcb
        exact h hcb
      | some endt =>
        rw [pause_eq_pending s id endt hp hc he h2]
        intro hcb
        exact h hcb

theorem meaningInv_runCb_cleared (shuffle : List WordEntry → List WordEntry)
    (hsh : ∀ l : List WordEntry, (shuffle l).length = l.length)
    (cb : Cb) (t : AppState) (hcb : t.job_callback = none) :
    MeaningInv (runCb shuffle cb t) := by
  cases cb with
  | displayMeaning => exact meaningInv_display_meaning t
  | advanceWord =>
    apply meaningInv_advance_word shuffle hsh
    intro hm
    rw [hcb] at hm
    cases hm

theorem meaningInv_resume_schedule (shuffle : List WordEntry → List WordEntry)
    (hsh : ∀ l : List WordEntry, (shuffle l).length = l.length)
    (t : AppState) (h : MeaningInv t) : MeaningInv (resume_schedule shuffle t) := by
  cases hcb : t.job_callback with
  | none =>
    rw [resume_schedule_skip shuffle t (Or.inl hcb)]
    exact h
  | some cb =>
    cases hrem : t.remaining_ms with
    | none =>
      rw [resume_schedule_skip shuffle t (Or.inr hrem)]
      exact h
    | some rem =>
      by_cases hpos : 0 < rem
      · rw [resume_schedule_arm shuffle t cb rem hcb hrem hpos]
        intro hm
        exact h hm
      · rw [resume_schedule_sync shuffle t cb rem hcb hrem (not_lt.mp hpos)]
        exact meaningInv_runCb_cleared shuffle hsh cb _ rfl

theorem meaningInv_resume (shuffle : List WordEntry → List WordEntry)
    (hsh : ∀ l : List WordEntry, (shuffle l).length = l.length)
    (s : AppState) (h : MeaningInv s) : MeaningInv (resume shuffle s) := by
  cases hp : s.paused with
  | false =>
    rw [resume_eq_not_paused shuffle s hp]
    exact h
  | true =>
    rw [resume_eq shuffle s hp]
    apply meaningInv_resume_schedule shuffle hsh
    intro hm
    exact h hm

theorem meaningInv_execute_job (shuffle : List WordEntry → List WordEntry)
    (hsh : ∀ l : List WordEntry, (shuffle l).length = l.length) (s : AppState) :
    MeaningInv (execute_job shuffle s) := by
  unfold execute_job
  cases hcb : s.job_callback with
  | none =>
    intro hm
    cases hm
  | some c => exact meaningInv_runCb_cleared shuffle hsh c _ rfl

theorem meaningInv_tk_fire (shuffle : List WordEntry → List WordEntry)
    (hsh : ∀ l : List WordEntry, (shuffle l).length = l.length) (s : AppState)
    (h : MeaningInv s) : MeaningInv (tk_fire shuffle s) := by
  unfold tk_fire
  cases hj : s.tk_jobs with
  | nil => exact h
  | cons j rest =>
    by_cases hdue : j.fire_at ≤ s.now
    · simp only [if_pos hdue]
      exact meaningInv_execute_job shuffle hsh _
    · simp only [if_neg hdue]
      exact h

theorem meaningInv_restart (t : AppState)
    (h2 : ∀ j ∈ t.tk_jobs, t.current_job = some j.id) : MeaningInv (restart t) := by
  simp only [restart]
  rw [clear_job_eq t h2]
  have hD : MeaningInv (display_word
      { t with tk_jobs := [], current_job := none, job_callback := none,
               remaining_ms := none, job_end_time := none }) := by
    apply meaningInv_display_word
    intro hm
    cases hm
  by_cases hp : t.paused = true
  · rw [if_pos hp]
    intro hm
    exact hD hm
  · rw [if_neg hp]
    exact hD

theorem meaningInv_set_words (shuffle : List WordEntry → List WordEntry)
    (ws : List WordEntry) (s : AppState)
    (h2 : ∀ j ∈ s.tk_jobs, s.current_job = some j.id) :
    MeaningInv (set_words shuffle ws s) := by
  unfold set_words
  exact meaningInv_restart _ h2

theorem meaningInv_update_config (smt nwt : PyVal) (aot : Bool) (s : AppState)
    (h2 : ∀ j ∈ s.tk_jobs, s.current_job = some j.id) :
    MeaningInv (update_config smt nwt aot s) := by
  unfold update_config
  exact meaningInv_restart _ h2

theorem fullInv_stepAct (shuffle : List WordEntry → List WordEntry)
    (hsh : ∀ l : List WordEntry, (shuffle l).length = l.length)
    (a : Act) (s : AppState) (h : SchedInv s ∧ MeaningInv s) :
    SchedInv (stepAct shuffle a s) ∧ MeaningInv (stepAct shuffle a s) := by
  refine ⟨schedInv_stepAct shuffle a s h.1, ?_⟩
  cases a with
  | displayWord => exact meaningInv_display_word s h.2
  | displayMeaning => exact meaningInv_display_meaning s
  | advanceWord => exact meaningInv_advance_word shuffle hsh s h.2
  | doPause => exact meaningInv_pause s h.2 h.1.2.1
  | doResume => exact meaningInv_resume shuffle hsh s h.2
  | setWords ws => exact meaningInv_set_words shuffle ws s h.1.2.1
  | updateConfig smt nwt aot => exact meaningInv_update_config smt nwt aot s h.1.2.1
  | tick dt =>
    intro hm
    exact h.2 hm
  | fire => exact meaningInv_tk_fire shuffle hsh s h.2

theorem fullInv_runActs (shuffle : List WordEntry → List WordEntry)
    (hsh : ∀ l : List WordEntry, (shuffle l).length = l.length)
    (acts : List Act) (s : AppState) (h : SchedInv s ∧ MeaningInv s) :
    SchedInv (runActs shuffle acts s) ∧ MeaningInv (runActs shuffle acts s) := by
  induction acts generalizing s with
  | nil => exact h
  | cons a rest ih => exact ih (stepAct shuffle a s) (fullInv_stepAct shuffle hsh a s h)

theorem fullInv_initState (shuffle : List WordEntry → List WordEntry)
    (cfg : ConfigManager) (ws : List WordEntry) (now0 : Int) :
    SchedInv (initState shuffle cfg ws now0) ∧ MeaningInv (initState shuffle cfg ws now0) :=
  ⟨schedInv_initState shuffle cfg ws now0,
   meaningInv_set_words shuffle ws _ (schedInv_baseState cfg ws now0).2.1⟩

/-- C9: with an empty word list, display_word shows the sentinel no-words
text with blank reading and meaning and changes nothing else (in
particular it schedules no callback); and in every state reachable from
the initial one, a stored display_meaning callback implies a non-empty
word list, so display_meaning, which indexes the word list unguarded, is
never invoked with an empty list. -/
theorem empty_words_sentinel :
    (∀ s : AppState, s.words = [] →
      display_word s =
        { s with word_var := "단어 없음", reading_var := "", meaning_var := "" }) ∧
    (∀ shuffle : List WordEntry → List WordEntry,
      (∀ l : List WordEntry, (shuffle l).length = l.length) →
      ∀ (cfg : ConfigManager) (ws : List WordEntry) (now0 : Int) (acts : List Act),
        (runActs shuffle acts (initState shuffle cfg ws now0)).job_callback
            = some Cb.displayMeaning →
        (runActs shuffle acts (initState shuffle cfg ws now0)).words ≠ []) := by
  constructor
  · intro s hw
    exact display_word_eq_empty s hw
  · intro shuffle hsh cfg ws now0 acts
    exact (fullInv_runActs shuffle hsh acts _ (fullInv_initState shuffle cfg ws now0)).2

/-- Witness for C9 at concrete states: with no words loaded the display
shows the sentinel and the state is otherwise untouched, and in the
freshly initialised one-word app the pending display_meaning callback
coexists with a non-empty list. -/
theorem empty_words_sentinel_witness :
    display_word sampleEmpty =
      { sampleEmpty with word_var := "단어 없음", reading_var := "", meaning_var := "" } ∧
    (runActs (fun l => l) [] (initState (fun l => l) sampleCfg [sampleWord1] 0)).words
      ≠ [] :=
  ⟨empty_words_sentinel.1 sampleEmpty rfl,
   empty_words_sentinel.2 (fun l => l) (fun l => rfl) sampleCfg [sampleWord1] 0 []
     (by decide)⟩

/-! ## C10: word import restores the previous list when the save fails -/

theorem clear_job_bank (t : AppState) :
    (clear_job t).word_bank = t.word_bank ∧ (clear_job t).disk_words = t.disk_words := by
  unfold clear_job
  cases t.current_job <;> exact ⟨rfl, rfl⟩

theorem display_word_bank (t : AppState) :
    (display_word t).word_bank = t.word_bank ∧
      (display_word t).disk_words = t.disk_words := by
  unfold display_word
  by_cases hw : t.words = []
  · rw [if_pos hw]
    exact ⟨rfl, rfl⟩
  · rw [if_neg hw]
    exact ⟨(schedule_after_fields _ _ _).2.2.2.2.2.2.1,
      (schedule_after_fields _ _ _).2.2.2.2.2.2.2⟩

theorem restart_bank (t : AppState) :
    (restart t).word_bank = t.word_bank ∧ (restart t).disk_words = t.disk_words := by
  unfold restart
  by_cases hp : t.paused = true
  · rw [if_pos hp]
    exact ⟨((display_word_bank _).1).trans (clear_job_bank t).1,
      ((display_word_bank _).2).trans (clear_job_bank t).2⟩
  · rw [if_neg hp]
    exact ⟨((display_word_bank _).1).trans (clear_job_bank t).1,
      ((display_word_bank _).2).trans (clear_job_bank t).2⟩

theorem set_words_bank (shuffle : List WordEntry → List WordEntry)
    (ws : List WordEntry) (a : AppState) :
    (set_words shuffle ws a).word_bank = ws ∧
      (set_words shuffle ws a).disk_words = a.disk_words := by
  unfold set_words
  exact ⟨(restart_bank _).1, (restart_bank _).2⟩

/-- C10: word import is atomic with respect to persistence failure.  If
the save fails, the settings view keeps its previous word list, the app
word bank is set back to that same previous list (so it is unchanged
whenever the two were in sync, as the normal flow keeps them), and the
words file on disk is untouched; if the save succeeds, the imported
words become the settings list, the app word bank and the persisted
file.  Hence the imported words replace the active word bank exactly
when the save succeeds. -/
theorem import_words_atomic (shuffle : List WordEntry → List WordEntry)
    (imported : List WordEntry) (st : ImportState) :
    (import_words shuffle false imported st).settings_words = st.settings_words ∧
    (import_words shuffle false imported st).app.word_bank = st.settings_words ∧
    (import_words shuffle false imported st).app.disk_words = st.app.disk_words ∧
    (st.app.word_bank = st.settings_words →
      (import_words shuffle false imported st).app.word_bank = st.app.word_bank) ∧
    (import_words shuffle true imported st).settings_words = imported ∧
    (import_words shuffle true imported st).app.word_bank = imported ∧
    (import_words shuffle true imported st).app.disk_words = imported := by
  refine ⟨rfl, ?_, ?_, ?_, rfl, ?_, ?_⟩
  · exact (set_words_bank shuffle st.settings_words st.app).1
  · exact (set_words_bank shuffle st.settings_words st.app).2
  · intro hsync
    exact ((set_words_bank shuffle st.settings_words st.app).1).trans hsync.symm
  · show (app_save_words shuffle imported st.app).word_bank = imported
    unfold app_save_words
    exact (set_words_bank shuffle imported _).1
  · show (app_save_words shuffle imported st.app).disk_words = imported
    unfold app_save_words
    exact (set_words_bank shuffle imported _).2

/-- Witness for C10 at a concrete settings state whose list agrees with
the app word bank: a failing save leaves the settings list, the app word
bank and the disk as they were; a succeeding save installs the imported
word everywhere. -/
theorem import_words_atomic_witness :
    (import_words (fun l => l) false [sampleWord1] sampleImport).settings_words
        = [sampleWord1, sampleWord2] ∧
    (import_words (fun l => l) false [sampleWord1] sampleImport).app.word_bank
        = sampleImport.app.word_bank ∧
    (import_words (fun l => l) false [sampleWord1] sampleImport).app.disk_words
        = sampleImport.app.disk_words ∧
    (import_words (fun l => l) true [sampleWord1] sampleImport).app.word_bank
        = [sampleWord1] ∧
    (import_words (fun l => l) true [sampleWord1] sampleImport).app.disk_words
        = [sampleWord1] := by
  have h := import_words_atomic (fun l => l) [sampleWord1] sampleImport
  exact ⟨h.1.trans (by decide), h.2.2.2.1 (by decide), h.2.2.1, h.2.2.2.2.2.1,
    h.2.2.2.2.2.2⟩

end JLPT
